import Mathlib

/-!
A verification development for `theanets/losses.py`.

The module under study builds Theano loss expressions.  We embed it shallowly:

* The *construction layer* models `Loss.__init__` and `CrossEntropy.__init__`.
  A Theano placeholder (`TT.scalar()`, `TT.vector()`, ...) is modelled as a
  `Placeholder` record carrying its element kind (float or integer), its
  tensor rank, and a creation-order id (distinct ids model the fact that each
  call to a container constructor creates a fresh, separate variable).
  Python tuple indexing — including negative indexing and `IndexError` — is
  modelled by `pyGet`, and a raised exception surfaces as `none`.

* The *evaluation layer* models the value of each built loss expression on a
  concrete binding of the placeholders.  A (flattened) tensor is a `List ℚ`;
  elementwise operations are `List.zipWith`/`List.map`, reductions are
  `List.sum` and `mean`.  Rational division by zero yields `0` in Lean
  (floating point would give `nan`/`inf`); theorems whose content depends on
  a denominator therefore carry explicit positivity or nonemptiness
  hypotheses rather than leaning on that convention.
-/

/-- Element kind of a Theano container: float (`TT.scalar` …) or integer
(`TT.iscalar` …). -/
inductive VKind : Type
  | float
  | int
deriving DecidableEq

/-- A symbolic placeholder: element kind, tensor rank, and creation order id
(0 for the first placeholder an instance creates, 1 for the second, …). -/
structure Placeholder where
  kind : VKind
  rank : ℕ
  id : ℕ
deriving DecidableEq

/-- Python tuple indexing `xs[i]` with negative-index wraparound; `none`
models a raised `IndexError`. -/
def pyGet {α : Type} (xs : List α) (i : Int) : Option α :=
  if 0 ≤ i then xs.get? i.toNat
  else if 0 ≤ (xs.length : Int) + i then xs.get? ((xs.length : Int) + i).toNat
  else none

/-- `Loss.F_CONTAINERS`: float containers of ranks 0–4
(`TT.scalar, TT.vector, TT.matrix, TT.tensor3, TT.tensor4`). -/
def F_CONTAINERS : List (VKind × ℕ) :=
  [(VKind.float, 0), (VKind.float, 1), (VKind.float, 2),
   (VKind.float, 3), (VKind.float, 4)]

/-- `Loss.I_CONTAINERS`: integer containers of ranks 0–4
(`TT.iscalar, TT.ivector, TT.imatrix, TT.itensor3, TT.itensor4`). -/
def I_CONTAINERS : List (VKind × ℕ) :=
  [(VKind.int, 0), (VKind.int, 1), (VKind.int, 2),
   (VKind.int, 3), (VKind.int, 4)]

/-- The attributes a constructed `Loss` instance holds: `self.input`,
`self.target` (possibly `None`), `self.weight` (possibly `None`) and
`self.variables` (field `vars` here; `variables` is reserved in Lean). -/
structure LossState where
  input : Placeholder
  target : Option Placeholder
  weight : Option Placeholder
  vars : List Placeholder
deriving DecidableEq

/-- `Loss.__init__(in_dim, out_dim=None, weighted=False)`, line by line:
`self.input = Loss.F_CONTAINERS[in_dim]()`; `self.variables = [self.input]`;
`if out_dim:` (Python truthiness: `None` and `0` are falsy) create
`self.target = Loss.F_CONTAINERS[out_dim]()` and append it; `if weighted:`
create `self.weight = Loss.F_CONTAINERS[out_dim or in_dim]()` and append it.
`none` models an uncaught exception escaping the constructor. -/
def Loss.init (in_dim : Int) (out_dim : Option Int) (weighted : Bool) :
    Option LossState := do
  let ic ← pyGet F_CONTAINERS in_dim
  let input : Placeholder := ⟨ic.1, ic.2, 0⟩
  let odT : Option Int := match out_dim with
    | some d => if d = 0 then none else some d
    | none => none
  let target : Option Placeholder ← match odT with
    | some d => do
        let tc ← pyGet F_CONTAINERS d
        pure (some ⟨tc.1, tc.2, 1⟩)
    | none => pure none
  let weight : Option Placeholder ← if weighted then do
      let wc ← pyGet F_CONTAINERS (odT.getD in_dim)
      pure (some ⟨wc.1, wc.2, if target.isSome then 2 else 1⟩)
    else pure none
  let vars1 := [input]
  let vars2 := match target with
    | some t => vars1 ++ [t]
    | none => vars1
  let vars3 := match weight with
    | some p => vars2 ++ [p]
    | none => vars2
  pure ⟨input, target, weight, vars3⟩

/-- `CrossEntropy.__init__(in_dim, out_dim, weighted=False)`: float input of
rank `in_dim`, integer target of rank `out_dim` created unconditionally (no
truthiness test), float weight of rank `out_dim` iff `weighted`. -/
def CrossEntropy.init (in_dim out_dim : Int) (weighted : Bool) :
    Option LossState := do
  let ic ← pyGet F_CONTAINERS in_dim
  let input : Placeholder := ⟨ic.1, ic.2, 0⟩
  let tc ← pyGet I_CONTAINERS out_dim
  let target : Placeholder := ⟨tc.1, tc.2, 1⟩
  let weight : Option Placeholder ← if weighted then do
      let wc ← pyGet F_CONTAINERS out_dim
      pure (some ⟨wc.1, wc.2, 2⟩)
    else pure none
  let vars1 := [input, target]
  let vars2 := match weight with
    | some p => vars1 ++ [p]
    | none => vars1
  pure ⟨input, some target, weight, vars2⟩

/-- Elementwise subtraction of two bound tensors (`a - b` in Theano). -/
def vsub (a b : List ℚ) : List ℚ := List.zipWith (fun x y => x - y) a b

/-- Elementwise product of two bound tensors (`a * b` in Theano). -/
def vmul (a b : List ℚ) : List ℚ := List.zipWith (fun x y => x * y) a b

/-- `t.mean()` on a bound tensor: sum divided by element count. -/
def mean (l : List ℚ) : ℚ := l.sum / l.length

/-- Value of `Loss.diff(output)`: `output - (self.input if self.target is
None else self.target)`, with `env` binding each placeholder to data. -/
def LossState.diffEval (st : LossState) (env : Placeholder → List ℚ)
    (output : List ℚ) : List ℚ :=
  vsub output (match st.target with
    | none => env st.input
    | some t => env t)

/-- Value of `MeanSquaredError.__call__(output)`: with `err = diff`,
`(weight * err * err).sum() / weight.sum()` when a weight placeholder
exists, else `(err * err).mean()`.  `target` is the data bound to the
target placeholder (the input placeholder when no target exists). -/
def mseLoss (weight : Option (List ℚ)) (output target : List ℚ) : ℚ :=
  let err := vsub output target
  match weight with
  | some w => (vmul (vmul w err) err).sum / w.sum
  | none => mean (vmul err err)

/-- Value of `MeanAbsoluteError.__call__(output)`:
`abs(weight * err).sum() / weight.sum()` when weighted (the weight is
multiplied in before `abs`), else `abs(err).mean()`. -/
def maeLoss (weight : Option (List ℚ)) (output target : List ℚ) : ℚ :=
  let err := vsub output target
  match weight with
  | some w => ((vmul w err).map (fun x => |x|)).sum / w.sum
  | none => mean (err.map (fun x => |x|))

/-- Value of `Hinge.__call__(output)`: with `err = maximum(0, diff)`,
`(weight * err).sum() / weight.sum()` when weighted, else `err.mean()`. -/
def hingeLoss (weight : Option (List ℚ)) (output target : List ℚ) : ℚ :=
  let err := (vsub output target).map (fun d => max 0 d)
  match weight with
  | some w => (vmul w err).sum / w.sum
  | none => mean err

/-- `TT.clip(x, lo, hi)`. -/
def clip (x lo hi : ℚ) : ℚ := min (max x lo) hi

/-- The per-row negative log probabilities built by
`CrossEntropy.__call__`: `k = output.shape[-1]`, `n = prod(output.shape)`,
`prob = output.reshape((-1, k))[arange(n // k), target.reshape((-1,))]`,
`nlp = -log(clip(prob, 1e-8, 1))`.  `flat` is the flattened output tensor,
`target` the flattened integer target; row `i` reads flat element
`i * k + target[i]`.  `log` abstracts the transcendental `TT.log`. -/
def xeNlp (log : ℚ → ℚ) (k : ℕ) (flat : List ℚ) (target : List ℕ) :
    List ℚ :=
  (List.range (flat.length / k)).map (fun i =>
    - log (clip (flat.getD (i * k + target.getD i 0) 0) (1 / 100000000) 1))

/-- Value of `CrossEntropy.__call__(output)`: the weighted
(`(weight.reshape((-1,)) * nlp).sum() / weight.sum()`) or plain
(`nlp.mean()`) reduction of `xeNlp`. -/
def xeLoss (log : ℚ → ℚ) (k : ℕ) (weight : Option (List ℚ))
    (flat : List ℚ) (target : List ℕ) : ℚ :=
  let nlp := xeNlp log k flat target
  match weight with
  | some w => (vmul w nlp).sum / w.sum
  | none => mean nlp

/-- `TT.argmax` over one row: index of the first occurrence of the maximal
element (numpy/Theano tie-breaking). -/
def argmaxIdx : List ℚ → ℕ
  | [] => 0
  | x :: xs => (x :: xs).indexOf ((x :: xs).foldr max x)

/-- `correct = TT.eq(predict, target)` in `CrossEntropy.accuracy`: the 0/1
list marking the rows whose argmax equals the target class. -/
def correctInd (output : List (List ℚ)) (target : List ℕ) : List ℚ :=
  List.zipWith
    (fun row t => if argmaxIdx row = t then (1 : ℚ) else 0) output target

/-- The number of rows whose argmax equals the target class. -/
def matchCount (output : List (List ℚ)) (target : List ℕ) : ℕ :=
  (List.zipWith
    (fun row t => if argmaxIdx row = t then (1 : ℕ) else 0) output target).sum

/-- Value of `CrossEntropy.accuracy(output)`:
`predict = argmax(output, axis=-1)`, `correct = eq(predict, target)` (0/1
valued), reduced by `correct.mean()`, or by
`(weight * correct).sum() / weight.sum()` when a weight placeholder
exists.  `output` is the tensor cut into rows along its last axis. -/
def accuracyEval (weight : Option (List ℚ)) (output : List (List ℚ))
    (target : List ℕ) : ℚ :=
  match weight with
  | some w => (vmul w (correctInd output target)).sum / w.sum
  | none => mean (correctInd output target)

/-- The alternative weighting order named by the spec's open question:
`(weight * abs(err)).sum() / weight.sum()`, the weight applied AFTER the
absolute value.  Written from the spec's words, for comparison with
`maeLoss`. -/
def maeLossAfterAbs (w output target : List ℚ) : ℚ :=
  let err := vsub output target
  (vmul w (err.map (fun x => |x|))).sum / w.sum

/-- Cross-entropy written from the claim's words: `output` already cut into
rows, row `i` contributing `-log(clip(row[target[i]], 1e-8, 1))`, reduced
by mean or by `sum(weight * nlp) / sum(weight)`. -/
def xeLossRows (log : ℚ → ℚ) (weight : Option (List ℚ))
    (output : List (List ℚ)) (target : List ℕ) : ℚ :=
  let nlp := List.zipWith
    (fun row t => - log (clip (row.getD t 0) (1 / 100000000) 1)) output target
  match weight with
  | some w => (vmul w nlp).sum / w.sum
  | none => mean nlp

lemma vmul_replicate (c : ℚ) (l : List ℚ) :
    vmul (List.replicate l.length c) l = l.map fun x => c * x := by
  induction l with
  | nil => rfl
  | cons a as ih => simpa [vmul, List.replicate_succ] using ih

lemma vmul_comm (a b : List ℚ) : vmul a b = vmul b a := by
  induction a generalizing b with
  | nil => simp [vmul]
  | cons x xs ih =>
      cases b with
      | nil => simp [vmul]
      | cons y ys =>
          simpa [vmul, mul_comm] using ih ys

lemma vmul_self (l : List ℚ) : vmul l l = l.map fun x => x * x := by
  induction l with
  | nil => rfl
  | cons a as ih => simp [vmul]

lemma vmul_vmul (w e : List ℚ) : vmul (vmul w e) e = vmul w (vmul e e) := by
  induction w generalizing e with
  | nil => simp [vmul]
  | cons a as ih =>
      cases e with
      | nil => simp [vmul]
      | cons b bs => simpa [vmul, mul_assoc] using ih bs

lemma replicate_sum (n : ℕ) (c : ℚ) : (List.replicate n c).sum = n * c := by
  rw [List.sum_replicate, nsmul_eq_mul]

lemma map_mul_sum (c : ℚ) (l : List ℚ) :
    (l.map fun x => c * x).sum = c * l.sum := by
  simpa using List.sum_map_mul_left l id c

/-- Dividing a uniformly `c`-weighted sum by the weight total is the plain
mean, for any nonzero `c`. -/
lemma uniformCancel (c : ℚ) (hc : c ≠ 0) (l : List ℚ) :
    (vmul (List.replicate l.length c) l).sum
      / (List.replicate l.length c).sum = mean l := by
  rw [vmul_replicate, map_mul_sum, replicate_sum, mean, mul_comm (l.length : ℚ) c,
    mul_div_mul_left _ _ hc]

lemma mem_vmul_nonneg (w e : List ℚ) (hw : ∀ x ∈ w, 0 ≤ x)
    (he : ∀ x ∈ e, 0 ≤ x) : ∀ x ∈ vmul w e, 0 ≤ x := by
  induction w generalizing e with
  | nil => simp [vmul]
  | cons a as ih =>
      cases e with
      | nil => simp [vmul]
      | cons b bs =>
          intro x hx
          rcases (by simpa [vmul] using hx :
              x = a * b ∨ x ∈ vmul as bs) with h | h
          · exact h ▸ mul_nonneg (hw a (by simp)) (he b (by simp))
          · exact ih bs (fun y hy => hw y (by simp [hy]))
              (fun y hy => he y (by simp [hy])) x h

lemma mean_nonneg (l : List ℚ) (h : ∀ x ∈ l, 0 ≤ x) : 0 ≤ mean l :=
  div_nonneg (List.sum_nonneg h) (Nat.cast_nonneg _)

/-- C2 (counterexample): the claim asserts the weighted mean-absolute-error
differs from the weight-after-abs formula `sum(weight*|diff|)/sum(weight)`
*whenever* some weight is negative.  With weight `-1` and a zero difference
the two formulas coincide (both are `0`), so the "whenever" is false. -/
theorem c2_counterexample :
    maeLoss (some [-1]) [0] [0] = maeLossAfterAbs [-1] [0] [0] ∧
    (-1 : ℚ) < 0 := by
  norm_num [maeLoss, maeLossAfterAbs, vmul, vsub, mean]

/-- C2 (amended): the weighted MAE expression is
`sum(|weight * diff|) / sum(weight)` — the weight is multiplied into the
error before the absolute value — and therefore differs from
`sum(weight * |diff|) / sum(weight)` for SOME bindings with a negative
weight (weight `-1`, output `1`, target `0`: `-1` versus `1`); the
unweighted expression is `mean(|diff|)`. -/
theorem c2_mae_weight_before_abs (w output target : List ℚ) :
    maeLoss (some w) output target
      = ((vmul w (vsub output target)).map fun x => |x|).sum / w.sum ∧
    maeLoss none output target
      = mean ((vsub output target).map fun x => |x|) ∧
    maeLoss (some [-1]) [1] [0] ≠ maeLossAfterAbs [-1] [1] [0] := by
  refine ⟨rfl, rfl, ?_⟩
  norm_num [maeLoss, maeLossAfterAbs, vmul, vsub, mean]

/-- C3 (counterexample): the claim quantifies over EVERY uniform weight
value `c`.  With uniform weight `c = -1` the weighted mean absolute error
is `-(1/2)` while the unweighted one is `1/2`: `sum(|weight*diff|)` keeps
its sign while `sum(weight)` flips it, so negative uniform weights negate
the MAE instead of cancelling. -/
theorem c3_counterexample :
    maeLoss (some [-1, -1]) [1, 0] [0, 0] ≠ maeLoss none [1, 0] [0, 0] := by
  norm_num [maeLoss, vmul, vsub, mean]

/-- C3 (amended): for every loss variant (MSE, MAE, Hinge, CrossEntropy)
and every binding, a uniform weight vector whose entries all equal the same
POSITIVE value `c` gives the same value as the unweighted expression (the
scale cancels through the normalisation by `sum(weight)`). -/
theorem c3_uniform_weight (c : ℚ) (hc : 0 < c)
    (output target flat : List ℚ) (tgtN : List ℕ) (log : ℚ → ℚ) (k : ℕ) :
    mseLoss (some (List.replicate (vsub output target).length c))
        output target = mseLoss none output target ∧
    maeLoss (some (List.replicate (vsub output target).length c))
        output target = maeLoss none output target ∧
    hingeLoss (some (List.replicate (vsub output target).length c))
        output target = hingeLoss none output target ∧
    xeLoss log k (some (List.replicate (xeNlp log k flat tgtN).length c))
        flat tgtN = xeLoss log k none flat tgtN := by
  refine ⟨?_, ?_, ?_, ?_⟩
  · show (vmul (vmul _ _) _).sum / _ = mean (vmul _ _)
    rw [vmul_vmul]
    have hl : (vsub output target).length = (vmul (vsub output target)
        (vsub output target)).length := by
      simp [vmul]
    rw [hl, uniformCancel c hc.ne' _]
  · show ((vmul _ _).map _).sum / _ = mean ((vsub output target).map _)
    have h1 : ((vmul (List.replicate (vsub output target).length c)
        (vsub output target)).map fun x => |x|)
        = vmul (List.replicate ((vsub output target).map
            fun x => |x|).length c) ((vsub output target).map fun x => |x|) := by
      rw [List.length_map, vmul_replicate]
      rw [show (vsub output target).length
            = ((vsub output target).map fun x => |x|).length by simp]
      rw [vmul_replicate, List.map_map, List.map_map]
      refine List.map_congr_left fun a _ => ?_
      simp [abs_mul, abs_of_pos hc]
    have h2 : (List.replicate (vsub output target).length c).sum
        = (List.replicate ((vsub output target).map
            fun x => |x|).length c).sum := by simp
    rw [h1, h2, uniformCancel c hc.ne' _]
  · show (vmul _ _).sum / _ = mean _
    have hl : (vsub output target).length
        = ((vsub output target).map fun d => max 0 d).length := by simp
    rw [hl, uniformCancel c hc.ne' _]
  · show (vmul _ _).sum / _ = mean _
    rw [uniformCancel c hc.ne' _]

/-- C3 (witness): uniform weight `2` on a concrete binding agrees with the
unweighted losses. -/
theorem c3_uniform_weight_witness :
    mseLoss (some [2, 2]) [3, 1] [1, 1] = mseLoss none [3, 1] [1, 1] ∧
    maeLoss (some [2, 2]) [3, 1] [1, 1] = maeLoss none [3, 1] [1, 1] ∧
    hingeLoss (some [2, 2]) [3, 1] [1, 1] = hingeLoss none [3, 1] [1, 1] ∧
    xeLoss id 2 (some [2]) [1, 0] [0] = xeLoss id 2 none [1, 0] [0] :=
  c3_uniform_weight 2 (by norm_num) [3, 1] [1, 1] [1, 0] [0] id 2

/-- C4 (counterexample): the claim asserts the hinge loss expression is
nonnegative for EVERY binding of the weights.  With mixed-sign weights
`[-1, 2]`, output `[1, 0]` and target `[0, 0]` the weighted hinge loss is
`((-1)*1 + 2*0) / (-1 + 2) = -1 < 0`. -/
theorem c4_counterexample : hingeLoss (some [-1, 2]) [1, 0] [0, 0] < 0 := by
  norm_num [hingeLoss, vmul, vsub, mean]

/-- C4 (amended): the unweighted hinge loss `mean(max(0, diff))` is
nonnegative for every binding, and the weighted hinge loss
`sum(weight*max(0,diff))/sum(weight)` is nonnegative for every binding
whose weights are all nonnegative. -/
theorem c4_hinge_nonneg (output target w : List ℚ)
    (hw : ∀ x ∈ w, 0 ≤ x) :
    0 ≤ hingeLoss none output target ∧
    0 ≤ hingeLoss (some w) output target := by
  have herr : ∀ x ∈ (vsub output target).map fun d => max 0 d, 0 ≤ x := by
    intro x hx
    rcases List.mem_map.mp hx with ⟨d, _, rfl⟩
    exact le_max_left 0 d
  constructor
  · exact mean_nonneg _ herr
  · exact div_nonneg
      (List.sum_nonneg (mem_vmul_nonneg w _ hw herr))
      (List.sum_nonneg hw)

/-- C4 (witness): the hinge loss is nonnegative on a concrete binding with
the nonnegative weight vector `[2]`. -/
theorem c4_hinge_nonneg_witness :
    0 ≤ hingeLoss none [1] [0] ∧ 0 ≤ hingeLoss (some [2]) [1] [0] :=
  c4_hinge_nonneg [1] [0] [2] (by norm_num)

/-- C6: the unweighted MSE expression is the arithmetic mean of the squared
differences, the weighted one is `sum(weight * diff^2) / sum(weight)`, and
all-ones weights reproduce the unweighted value. -/
theorem c6_mse (output target w : List ℚ)
    (hlen : output.length = target.length) :
    mseLoss none output target
      = (List.zipWith (fun a b => (a - b) ^ 2) output target).sum
          / output.length ∧
    mseLoss (some w) output target
      = (vmul w ((vsub output target).map fun d => d ^ 2)).sum / w.sum ∧
    mseLoss (some (List.replicate output.length 1)) output target
      = mseLoss none output target := by
  have hsq : vmul (vsub output target) (vsub output target)
      = (vsub output target).map fun d => d ^ 2 := by
    rw [vmul_self]
    exact List.map_congr_left fun a _ => (sq a).symm
  have herrlen : (vsub output target).length = output.length := by
    simp [vsub, hlen]
  refine ⟨?_, ?_, ?_⟩
  · show mean (vmul _ _) = _
    rw [mean, hsq]
    have hl : ((vsub output target).map fun d => d ^ 2).length
        = output.length := by simpa using herrlen
    rw [hl]
    congr 1
    rw [vsub, List.map_zipWith]
  · show (vmul (vmul _ _) _).sum / _ = _
    rw [vmul_vmul, hsq]
  · show (vmul (vmul _ _) _).sum / _ = mean (vmul _ _)
    rw [vmul_vmul]
    have hl : output.length = (vmul (vsub output target)
        (vsub output target)).length := by
      simp [vmul, herrlen]
    rw [hl, uniformCancel 1 one_ne_zero _]

lemma flatten_length_uniform (k : ℕ) :
    ∀ (rows : List (List ℚ)), (∀ r ∈ rows, r.length = k) →
      rows.flatten.length = rows.length * k := by
  intro rows
  induction rows with
  | nil => simp
  | cons r rs ih =>
      intro hr
      have hrk : r.length = k := hr r (by simp)
      have := ih fun q hq => hr q (by simp [hq])
      simp [this, hrk, Nat.succ_mul, Nat.add_comm]

/-- Reading the flattened matrix at `i * k + j` is reading row `i` at
column `j`, when every row has length `k` and `j < k`. -/
lemma flatten_getD_uniform (k : ℕ) :
    ∀ (rows : List (List ℚ)), (∀ r ∈ rows, r.length = k) →
      ∀ (i : ℕ), i < rows.length → ∀ (j : ℕ), j < k →
        rows.flatten.getD (i * k + j) 0 = (rows.getD i []).getD j 0 := by
  intro rows
  induction rows with
  | nil =>
      intro _ i hi
      exact absurd hi (by simp)
  | cons r rs ih =>
      intro hr i hi j hj
      have hrk : r.length = k := hr r (by simp)
      cases i with
      | zero =>
          rw [List.flatten_cons, zero_mul, zero_add, List.getD_cons_zero]
          exact List.getD_append r rs.flatten 0 j (hrk ▸ hj)
      | succ i =>
          have hi' : i < rs.length := by simpa using hi
          have hidx : (i + 1) * k + j = r.length + (i * k + j) := by
            rw [hrk, Nat.succ_mul]
            omega
          rw [List.flatten_cons, List.getD_cons_succ, hidx,
            List.getD_append_right r rs.flatten 0 _ (Nat.le_add_right _ _),
            Nat.add_sub_cancel_left]
          exact ih (fun q hq => hr q (by simp [hq])) i hi' j hj

/-- The negative-log-probability list built from the flattened output by
`CrossEntropy.__call__` equals the row-by-row gather described by the
spec, when every row has length `k > 0`, the target has one entry per row,
and every target class is in range. -/
lemma xeNlp_flatten (log : ℚ → ℚ) (k : ℕ) (hk : 0 < k)
    (rows : List (List ℚ)) (ts : List ℕ)
    (hr : ∀ r ∈ rows, r.length = k) (hlen : ts.length = rows.length)
    (ht : ∀ t ∈ ts, t < k) :
    xeNlp log k rows.flatten ts
      = List.zipWith (fun row t => - log (clip (row.getD t 0)
          (1 / 100000000) 1)) rows ts := by
  have hrows : rows.flatten.length / k = rows.length := by
    rw [flatten_length_uniform k rows hr, Nat.mul_div_cancel _ hk]
  apply List.ext_getElem
  · simp only [xeNlp, List.length_map, List.length_range,
      List.length_zipWith, hrows, hlen, Nat.min_self]
  · intro i h1 h2
    have hi : i < rows.length := by
      simpa only [xeNlp, List.length_map, List.length_range, hrows] using h1
    have hti : i < ts.length := by omega
    simp only [xeNlp, List.getElem_map, List.getElem_range,
      List.getElem_zipWith]
    have htk : ts[i] < k := ht ts[i] (List.getElem_mem hti)
    rw [List.getD_eq_getElem ts 0 hti,
      flatten_getD_uniform k rows hr i hi ts[i] htk,
      List.getD_eq_getElem rows [] hi]

/-- C5: on a well-formed binding (rows of uniform length `k > 0`, one
integer target per row, every target class below `k`),
`CrossEntropy.__call__` — which flattens the output to an `(N, k)` matrix
with `N = count / k`, gathers the probability of each row's target class,
takes `-log(clip(prob, 1e-8, 1))` and reduces by the mean or by
`sum(weight*nlp)/sum(weight)` — computes exactly the row-by-row loss the
claim describes. -/
theorem c5_cross_entropy (log : ℚ → ℚ) (k : ℕ) (hk : 0 < k)
    (rows : List (List ℚ)) (ts : List ℕ) (weight : Option (List ℚ))
    (hr : ∀ r ∈ rows, r.length = k) (hlen : ts.length = rows.length)
    (ht : ∀ t ∈ ts, t < k) :
    xeLoss log k weight rows.flatten ts = xeLossRows log weight rows ts := by
  have key := xeNlp_flatten log k hk rows ts hr hlen ht
  cases weight with
  | none => rw [xeLoss, xeLossRows, key]
  | some w => rw [xeLoss, xeLossRows, key]

/-- C5 (witness): a concrete 2×2 output with both target classes in range;
the flattened-gather loss agrees with the row-by-row loss, weighted and
unweighted. -/
theorem c5_cross_entropy_witness :
    xeLoss id 2 none [1, 0, 0, 1] [0, 1]
      = xeLossRows id none [[1, 0], [0, 1]] [0, 1] :=
  c5_cross_entropy id 2 (by norm_num) [[1, 0], [0, 1]] [0, 1] none
    (by decide) (by decide) (by decide)

/-- C6 (witness): on output `[3, 1]`, target `[1, 1]` and weights `[5, 5]`
the three MSE identities hold concretely. -/
theorem c6_mse_witness :
    mseLoss none [3, 1] [1, 1]
      = (List.zipWith (fun a b => (a - b) ^ 2) [3, 1] [1, 1]).sum
          / (List.length [3, 1]) ∧
    mseLoss (some [5, 5]) [3, 1] [1, 1]
      = (vmul [5, 5] ((vsub [3, 1] [1, 1]).map fun d => d ^ 2)).sum
          / (List.sum [5, 5]) ∧
    mseLoss (some [1, 1]) [3, 1] [1, 1] = mseLoss none [3, 1] [1, 1] :=
  c6_mse [3, 1] [1, 1] [5, 5] rfl

lemma correctInd_sum (o : List (List ℚ)) :
    ∀ ts : List ℕ, (correctInd o ts).sum = (matchCount o ts : ℚ) := by
  induction o with
  | nil => intro ts; simp [correctInd, matchCount]
  | cons r rs ih =>
      intro ts
      cases ts with
      | nil => simp [correctInd, matchCount]
      | cons t ts' =>
          have e1 : correctInd (r :: rs) (t :: ts')
              = (if argmaxIdx r = t then (1 : ℚ) else 0)
                :: correctInd rs ts' := rfl
          have e2 : matchCount (r :: rs) (t :: ts')
              = (if argmaxIdx r = t then (1 : ℕ) else 0)
                + matchCount rs ts' := by
            simp [matchCount]
          rw [e1, List.sum_cons, ih ts', e2]
          push_cast
          by_cases h : argmaxIdx r = t <;> simp [h]

lemma correctInd_length (o : List (List ℚ)) (ts : List ℕ) :
    (correctInd o ts).length = min o.length ts.length := by
  simp [correctInd]

lemma correctInd_all_one (o : List (List ℚ)) :
    ∀ ts : List ℕ, (∀ p ∈ o.zip ts, argmaxIdx p.1 = p.2) →
      correctInd o ts = List.replicate (min o.length ts.length) 1 := by
  induction o with
  | nil => intro ts _; simp [correctInd]
  | cons r rs ih =>
      intro ts h
      cases ts with
      | nil => simp [correctInd]
      | cons t ts' =>
          have h0 : argmaxIdx r = t := h (r, t) (by simp)
          have := ih ts' fun p hp => h p (by simp [hp])
          simp [correctInd, h0, Nat.succ_min_succ, List.replicate_succ]
          simpa [correctInd] using this

lemma correctInd_all_zero (o : List (List ℚ)) :
    ∀ ts : List ℕ, (∀ p ∈ o.zip ts, argmaxIdx p.1 ≠ p.2) →
      correctInd o ts = List.replicate (min o.length ts.length) 0 := by
  induction o with
  | nil => intro ts _; simp [correctInd]
  | cons r rs ih =>
      intro ts h
      cases ts with
      | nil => simp [correctInd]
      | cons t ts' =>
          have h0 : argmaxIdx r ≠ t := h (r, t) (by simp)
          have := ih ts' fun p hp => h p (by simp [hp])
          simp [correctInd, h0, Nat.succ_min_succ, List.replicate_succ]
          simpa [correctInd] using this

/-- C8: the unweighted accuracy expression is the fraction of rows whose
argmax over the last axis equals the integer target class; the weighted
accuracy is `sum(weight * correct) / sum(weight)`; when the argmax matches
the target on every row both reductions give `1`, and when it matches on
no row both give `0` (for the weighted reduction, provided the weight
total is nonzero). -/
theorem c8_accuracy (o : List (List ℚ)) (ts : List ℕ) (w : List ℚ)
    (hlen : o.length = ts.length) (hN : o ≠ [])
    (hw : w.length = o.length) :
    accuracyEval none o ts = (matchCount o ts : ℚ) / o.length ∧
    accuracyEval (some w) o ts
      = (vmul w (correctInd o ts)).sum / w.sum ∧
    ((∀ p ∈ o.zip ts, argmaxIdx p.1 = p.2) →
      accuracyEval none o ts = 1 ∧
      (w.sum ≠ 0 → accuracyEval (some w) o ts = 1)) ∧
    ((∀ p ∈ o.zip ts, argmaxIdx p.1 ≠ p.2) →
      accuracyEval none o ts = 0 ∧
      (w.sum ≠ 0 → accuracyEval (some w) o ts = 0)) := by
  have hmin : min o.length ts.length = o.length := by omega
  have hNlen : (0 : ℚ) < o.length := by
    have : o.length ≠ 0 := fun h => hN (List.length_eq_zero.mp h)
    exact_mod_cast Nat.pos_of_ne_zero this
  refine ⟨?_, rfl, ?_, ?_⟩
  · show mean (correctInd o ts) = _
    rw [mean, correctInd_sum, correctInd_length, hmin]
  · intro h
    have hrep := correctInd_all_one o ts h
    rw [hmin] at hrep
    constructor
    · show mean (correctInd o ts) = 1
      rw [mean, hrep, replicate_sum, mul_one, List.length_replicate]
      exact div_self hNlen.ne'
    · intro hsum
      show (vmul w (correctInd o ts)).sum / w.sum = 1
      rw [hrep, vmul_comm, ← hw, vmul_replicate]
      simp only [one_mul, List.map_id_fun', id]
      exact div_self hsum
  · intro h
    have hrep := correctInd_all_zero o ts h
    rw [hmin] at hrep
    constructor
    · show mean (correctInd o ts) = 0
      rw [mean, hrep, replicate_sum, mul_zero, zero_div]
    · intro _
      show (vmul w (correctInd o ts)).sum / w.sum = 0
      rw [hrep, vmul_comm, ← hw, vmul_replicate, map_mul_sum, zero_mul,
        zero_div]

/-- C8 (witness): a concrete 2-row binding; the accuracy is `1/2` matched
out of 2 rows, the weighted form is as stated, and the all-match and
no-match specialisations apply to match counts 2 and 0 respectively at
this input only vacuously. -/
theorem c8_accuracy_witness :
    accuracyEval none [[1, 3], [5, 2]] [1, 1]
      = (matchCount [[1, 3], [5, 2]] [1, 1] : ℚ)
          / (List.length [[1, 3], [5, 2]]) ∧
    accuracyEval (some [1, 3]) [[1, 3], [5, 2]] [1, 1]
      = (vmul [1, 3] (correctInd [[1, 3], [5, 2]] [1, 1])).sum
          / (List.sum [1, 3]) ∧
    ((∀ p ∈ ([[1, 3], [5, 2]] : List (List ℚ)).zip [1, 1],
        argmaxIdx p.1 = p.2) →
      accuracyEval none [[1, 3], [5, 2]] [1, 1] = 1 ∧
      (([1, 3] : List ℚ).sum ≠ 0 →
        accuracyEval (some [1, 3]) [[1, 3], [5, 2]] [1, 1] = 1)) ∧
    ((∀ p ∈ ([[1, 3], [5, 2]] : List (List ℚ)).zip [1, 1],
        argmaxIdx p.1 ≠ p.2) →
      accuracyEval none [[1, 3], [5, 2]] [1, 1] = 0 ∧
      (([1, 3] : List ℚ).sum ≠ 0 →
        accuracyEval (some [1, 3]) [[1, 3], [5, 2]] [1, 1] = 0)) :=
  c8_accuracy [[1, 3], [5, 2]] [1, 1] [1, 3] rfl (by simp) rfl

lemma pyGet_none {α : Type} (xs : List α) (i : Int)
    (h : (xs.length : Int) ≤ i ∨ i + xs.length < 0) : pyGet xs i = none := by
  rcases h with h | h
  · have h0 : 0 ≤ i := le_trans (Int.ofNat_nonneg _) h
    rw [pyGet, if_pos h0]
    exact List.get?_eq_none.mpr (by omega)
  · have h0 : ¬ 0 ≤ i := by omega
    have h1 : ¬ 0 ≤ (xs.length : Int) + i := by omega
    rw [pyGet, if_neg h0, if_neg h1]

/-- C1 (counterexample): the claim says a target placeholder of rank
`out_dim` exists whenever `out_dim` is given.  But `out_dim = 0` — rank 0
is a supported rank — is falsy in Python, so `Loss(1, out_dim=0)` builds
NO target placeholder, and a requested weight placeholder then takes the
input's rank 1, not the claimed target rank 0. -/
theorem c1_counterexample :
    (Loss.init 1 (some 0) false).map LossState.target = some none ∧
    (Loss.init 1 (some 0) true).map LossState.weight
        = some (some ⟨VKind.float, 1, 1⟩) := by decide

/-- C1 (amended): for `in_dim` in 0..4 and `out_dim` absent or in 0..4, a
base `Loss` gets a float input placeholder of rank `in_dim`; it gets a
separate float target placeholder of rank `out_dim` exactly when `out_dim`
is given AND nonzero (Python truthiness — `out_dim = 0` behaves like an
absent target, where the claim said any given `out_dim` yields one);
and it gets a float weight placeholder iff `weighted = True`, of the
target's rank when a target exists and of the input's rank otherwise. -/
theorem c1_placeholders (i : Int) (od : Option Int) (w : Bool)
    (hi : 0 ≤ i ∧ i ≤ 4)
    (ho : od = none ∨ ∃ d, od = some d ∧ 0 ≤ d ∧ d ≤ 4) :
    (Loss.init i od w).map LossState.input
        = some ⟨VKind.float, i.toNat, 0⟩ ∧
    (Loss.init i od w).map LossState.target
        = some (od.elim none fun d => if d = 0 then none
            else some ⟨VKind.float, d.toNat, 1⟩) ∧
    (Loss.init i od w).map LossState.weight
        = some (if w then
            some ⟨VKind.float,
              od.elim i.toNat fun d => if d = 0 then i.toNat else d.toNat,
              od.elim 1 fun d => if d = 0 then 1 else 2⟩
          else none) := by
  obtain ⟨hi0, hi4⟩ := hi
  rcases ho with rfl | ⟨d, rfl, hd0, hd4⟩
  · interval_cases i <;> cases w <;> decide
  · interval_cases i <;> interval_cases d <;> cases w <;> decide

/-- C1 (witness): `Loss(1, out_dim=2, weighted=True)` gets a rank-1 float
input, a rank-2 float target, and a rank-2 float weight. -/
theorem c1_placeholders_witness :
    (Loss.init 1 (some 2) true).map LossState.input
        = some ⟨VKind.float, 1, 0⟩ ∧
    (Loss.init 1 (some 2) true).map LossState.target
        = some (some ⟨VKind.float, 2, 1⟩) ∧
    (Loss.init 1 (some 2) true).map LossState.weight
        = some (some ⟨VKind.float, 2, 2⟩) :=
  c1_placeholders 1 (some 2) true (by norm_num)
    (Or.inr ⟨2, rfl, by norm_num, by norm_num⟩)

/-- C7: for a constructed instance, `diff(output)` is `output - target`
when a target placeholder exists, and `output - input` when it does not. -/
theorem c7_diff (i : Int) (od : Option Int) (w : Bool) (st : LossState)
    (t : Placeholder) (env : Placeholder → List ℚ) (output : List ℚ)
    (_h : Loss.init i od w = some st) :
    (st.target = some t → st.diffEval env output = vsub output (env t)) ∧
    (st.target = none → st.diffEval env output = vsub output (env st.input)) := by
  constructor
  · intro ht
    simp [LossState.diffEval, ht]
  · intro ht
    simp [LossState.diffEval, ht]

/-- C7 (witness): for `Loss(1, out_dim=2)` the difference is taken against
the target placeholder's data. -/
theorem c7_diff_witness :
    ((⟨⟨VKind.float, 1, 0⟩, some ⟨VKind.float, 2, 1⟩, none,
        [⟨VKind.float, 1, 0⟩, ⟨VKind.float, 2, 1⟩]⟩ : LossState).target
      = some ⟨VKind.float, 2, 1⟩ →
      LossState.diffEval ⟨⟨VKind.float, 1, 0⟩, some ⟨VKind.float, 2, 1⟩,
          none, [⟨VKind.float, 1, 0⟩, ⟨VKind.float, 2, 1⟩]⟩
        (fun _ => [0]) [5] = vsub [5] [0]) ∧
    ((⟨⟨VKind.float, 1, 0⟩, some ⟨VKind.float, 2, 1⟩, none,
        [⟨VKind.float, 1, 0⟩, ⟨VKind.float, 2, 1⟩]⟩ : LossState).target
      = none →
      LossState.diffEval ⟨⟨VKind.float, 1, 0⟩, some ⟨VKind.float, 2, 1⟩,
          none, [⟨VKind.float, 1, 0⟩, ⟨VKind.float, 2, 1⟩]⟩
        (fun _ => [0]) [5]
        = vsub [5] [0]) :=
  c7_diff 1 (some 2) false _ ⟨VKind.float, 2, 1⟩ (fun _ => [0]) [5]
    (by decide)

/-- C9 (counterexample): `in_dim = -1` and `out_dim = -1` lie outside the
supported rank range 0..4, yet construction silently succeeds through
Python negative tuple indexing, handing out the rank-4 containers. -/
theorem c9_counterexample :
    (Loss.init (-1) none false).map LossState.input
        = some ⟨VKind.float, 4, 0⟩ ∧
    (CrossEntropy.init 2 (-1) false).map LossState.target
        = some (some ⟨VKind.int, 4, 1⟩) := by decide

/-- C9 (amended): constructing a `Loss` or `CrossEntropy` fails with an
index failure when `in_dim` or a given `out_dim` is at least 5 or at most
-6 (beyond even Python's negative indexing); indices -5..-1, although
outside the advertised range 0..4, silently succeed instead of failing. -/
theorem c9_out_of_range (i d : Int) (od : Option Int) (w : Bool) :
    (5 ≤ i ∨ i ≤ -6 →
      Loss.init i od w = none ∧ CrossEntropy.init i d w = none) ∧
    (5 ≤ d ∨ d ≤ -6 →
      Loss.init i (some d) w = none ∧ CrossEntropy.init i d w = none) := by
  have hF : F_CONTAINERS.length = 5 := rfl
  have hI : I_CONTAINERS.length = 5 := rfl
  constructor
  · intro h
    have hpy : pyGet F_CONTAINERS i = none :=
      pyGet_none _ _ (by rw [hF]; omega)
    constructor
    · simp [Loss.init, hpy]
    · simp [CrossEntropy.init, hpy]
  · intro h
    have hd0 : ¬ d = 0 := by omega
    have hpyd : pyGet F_CONTAINERS d = none :=
      pyGet_none _ _ (by rw [hF]; omega)
    have hpyId : pyGet I_CONTAINERS d = none :=
      pyGet_none _ _ (by rw [hI]; omega)
    constructor
    · cases hpy : pyGet F_CONTAINERS i with
      | none => simp [Loss.init, hpy]
      | some ic => simp [Loss.init, hpy, hd0, hpyd]
    · cases hpy : pyGet F_CONTAINERS i with
      | none => simp [CrossEntropy.init, hpy]
      | some ic => simp [CrossEntropy.init, hpy, hpyId]

/-- C9 (witness): rank 5 does not exist; both constructors raise. -/
theorem c9_out_of_range_witness :
    Loss.init 5 none true = none ∧ CrossEntropy.init 5 3 true = none :=
  (c9_out_of_range 5 3 none true).1 (Or.inl (by norm_num))

/-- C10: the `variables` attribute of any successfully constructed base
`Loss` or `CrossEntropy` lists exactly the placeholders created, in
creation order: the input first, then the target placeholder when one
exists, then the weight placeholder when one exists.  (`diff`, `__call__`
and `accuracy` are modelled by the pure functions `LossState.diffEval`,
`mseLoss`, `maeLoss`, `hingeLoss`, `xeLoss` and `accuracyEval`, which take
the state as a read-only argument — the source methods contain no
assignment, so the list is never modified after construction.) -/
theorem c10_variables_order (i d : Int) (od : Option Int) (w : Bool)
    (st st2 : LossState) :
    (Loss.init i od w = some st →
      st.vars = [st.input] ++ st.target.toList ++ st.weight.toList) ∧
    (CrossEntropy.init i d w = some st2 →
      st2.vars = [st2.input] ++ st2.target.toList ++ st2.weight.toList) := by
  constructor
  · intro h
    unfold Loss.init at h
    rcases hpy : pyGet F_CONTAINERS i with _ | ic <;> rw [hpy] at h
    · exact absurd h (by simp)
    · rcases od with _ | dv
      · cases w <;> simp [hpy] at h <;> subst h <;> simp
      · by_cases hdv : dv = 0
        · cases w <;> simp [hpy, hdv] at h <;> subst h <;> simp
        · rcases hpyd : pyGet F_CONTAINERS dv with _ | tc <;>
            cases w <;> simp [hpy, hpyd, hdv] at h <;> subst h <;> simp
  · intro h
    unfold CrossEntropy.init at h
    rcases hpy : pyGet F_CONTAINERS i with _ | ic <;> rw [hpy] at h
    · exact absurd h (by simp)
    · rcases hpyI : pyGet I_CONTAINERS d with _ | tc <;> rw [hpyI] at h
      · exact absurd h (by simp)
      · rcases hpyF : pyGet F_CONTAINERS d with _ | wc <;>
          cases w <;> simp [hpy, hpyI, hpyF] at h <;> subst h <;> simp

/-- C10 (witness): the weighted `Loss(1, out_dim=2)` variable list holds
input, target, weight in creation order. -/
theorem c10_variables_order_witness :
    ([⟨VKind.float, 1, 0⟩, ⟨VKind.float, 2, 1⟩, ⟨VKind.float, 2, 2⟩]
        : List Placeholder)
      = [⟨VKind.float, 1, 0⟩]
        ++ (some (⟨VKind.float, 2, 1⟩ : Placeholder)).toList
        ++ (some (⟨VKind.float, 2, 2⟩ : Placeholder)).toList :=
  (c10_variables_order 1 1 (some 2) true
    ⟨⟨VKind.float, 1, 0⟩, some ⟨VKind.float, 2, 1⟩, some ⟨VKind.float, 2, 2⟩,
      [⟨VKind.float, 1, 0⟩, ⟨VKind.float, 2, 1⟩, ⟨VKind.float, 2, 2⟩]⟩
    ⟨⟨VKind.float, 1, 0⟩, some ⟨VKind.int, 1, 1⟩, some ⟨VKind.float, 1, 2⟩,
      [⟨VKind.float, 1, 0⟩, ⟨VKind.int, 1, 1⟩, ⟨VKind.float, 1, 2⟩]⟩).1
    (by decide)
